import Mathlib

/-!
Verification of the Cycle-Count-Serialized barcode reconciler.

The repository contains two variants of the same React component:

* `src/unnamed/part_000` — the two-column variant: the master list holds
  strings of the form "instrumentNumber,serialNumber", scans are resolved
  against both identifiers by `processNumber`, and unresolved scans are
  rejected with an alert.
* `src/barcode-reconciler-app/src/BarcodeReconciler.jsx` — the one-column
  variant: the master list holds bare instrument numbers and `handleScan`
  tallies every non-empty trimmed scan without any resolution step.

Both variants share a character-identical `report` derivation.

JavaScript strings are modelled as Lean `String`; `trim`, `toUpperCase`
and `split(',')` are modelled by executable functions below (`jsTrim`
restricted to ASCII whitespace, `jsToUpper` to ASCII case mapping — the
identifiers involved are ASCII).  JavaScript objects used as count maps
are modelled as association lists in insertion order.
-/

namespace Reconciler

/-- ASCII whitespace, the relevant fragment of what JavaScript `trim` strips. -/
def jsWhitespace (c : Char) : Bool :=
  c == ' ' || c == '\t' || c == '\n' || c == '\r'

/-- Model of JavaScript `String.prototype.trim`: strip leading and trailing
whitespace. -/
def jsTrim (s : String) : String :=
  String.mk (((s.data.dropWhile jsWhitespace).reverse.dropWhile jsWhitespace).reverse)

/-- Model of JavaScript `String.prototype.toUpperCase` (ASCII fragment). -/
def jsToUpper (s : String) : String :=
  String.mk (s.data.map Char.toUpper)

/-- Auxiliary splitter: accumulates the current segment (reversed) and cuts
at every comma. -/
def splitAux : List Char → List Char → List String
  | [], acc => [String.mk acc.reverse]
  | c :: cs, acc =>
      if c == ',' then String.mk acc.reverse :: splitAux cs []
      else splitAux cs (c :: acc)

/-- Model of JavaScript `s.split(',')`: the empty string yields `[""]`,
separators at the ends yield empty segments. -/
def jsSplitComma (s : String) : List String :=
  splitAux s.data []

/-- A JavaScript object used as a string-keyed count map, in insertion order. -/
abbrev Tally := List (String × Nat)

/-- Reading `obj[k]` with the `|| 0` default used throughout the source. -/
def lookupCount : Tally → String → Nat
  | [], _ => 0
  | p :: t, k => if p.1 = k then p.2 else lookupCount t k

/-- Writing `obj[k] = v`: replace the value at an existing key in place,
otherwise append the key (JavaScript object assignment / spread-with-computed-key). -/
def objSet : Tally → String → Nat → Tally
  | [], k, v => [(k, v)]
  | p :: t, k, v => if p.1 = k then (k, v) :: t else p :: objSet t k v

/-- Whether the object has the key. -/
def hasKey (t : Tally) (k : String) : Bool :=
  t.any (fun p => p.1 == k)

/-- The increment pattern `{...prev, [k]: (prev[k] || 0) + 1}` of both variants. -/
def bump (t : Tally) (k : String) : Tally :=
  objSet t k (lookupCount t k + 1)

/-- Model of `[...new Set(xs)]`: deduplicate keeping the first occurrence,
preserving order. -/
def dedupFirst (l : List String) : List String :=
  l.foldl (fun acc x => if x ∈ acc then acc else acc ++ [x]) []

/-- The component state shared by both variants: `masterList` and
`scannedData` (the two `useState` cells). -/
structure AppState where
  masterList : List String
  scannedData : Tally
deriving DecidableEq

end Reconciler

namespace TwoCol

open Reconciler

/-- Embeds `parseMasterList` of `src/unnamed/part_000` (lines 6-33): each row
with at least two fields becomes `trim(f0) ++ "," ++ trim(f1)`, a row with
exactly one field becomes `trim(f0) ++ ","`, an empty row is dropped, entries
whose first comma-segment is empty are filtered out, and the result is
deduplicated via `new Set` keeping first occurrences. -/
def parseMasterList (rows : List (List String)) : List String :=
  dedupFirst
    ((rows.filterMap fun row =>
        match row with
        | a :: b :: _ => some (jsTrim a ++ "," ++ jsTrim b)
        | [a] => some (jsTrim a ++ ",")
        | [] => none).filter
      (fun item => (jsSplitComma item).getD 0 "" != ""))

/-- The predicate inside `masterList.find` of `processNumber`
(`part_000` lines 101-104): split the entry at commas, trim and upper-case
each part, and compare the normalized scan against the first part
(instrument number) and, when present, the second part (serial number). -/
def matchesItem (n : String) (item : String) : Bool :=
  let parts := (jsSplitComma item).map (fun x => jsToUpper (jsTrim x))
  n == parts.getD 0 "" ||
    (match parts.get? 1 with
     | some serialNum => n == serialNum
     | none => false)

/-- Embeds `processNumber` of `part_000` (lines 96-116).  Empty input hits the
`if (!number) return;` guard (the returned `undefined` is falsy at every call
site, modelled as `false`).  Otherwise the input is trimmed and upper-cased,
resolved against the master list, and on a match the count stored under the
trimmed first comma-segment of the matched entry is incremented. -/
def processNumber (st : AppState) (number : String) : Bool × AppState :=
  if number = "" then (false, st)
  else
    let normalizedNumber := jsToUpper (jsTrim number)
    match st.masterList.find? (fun item => matchesItem normalizedNumber item) with
    | some m =>
        let instrumentNumber := jsTrim ((jsSplitComma m).getD 0 "")
        (true, { st with scannedData := bump st.scannedData instrumentNumber })
    | none => (false, st)

/-- Embeds `handleScan` of `part_000` (lines 118-128): the input field value is
trimmed before being passed to `processNumber`. -/
def handleScan (st : AppState) (value : String) : Bool × AppState :=
  processNumber st (jsTrim value)

/-- Embeds `handleManualSubmit` of `part_000` (lines 130-137): the manual-entry
value is passed to `processNumber` untrimmed. -/
def handleManualSubmit (st : AppState) (manualNumber : String) : Bool × AppState :=
  processNumber st manualNumber

end TwoCol

namespace OneCol

open Reconciler

/-- Embeds `parseMasterList` of `BarcodeReconciler.jsx` (lines 7-25): the rows
are flattened, every field trimmed, empty fields dropped, and the result
deduplicated via `new Set` keeping first occurrences. -/
def parseMasterList (rows : List (List String)) : List String :=
  dedupFirst ((rows.flatten.map jsTrim).filter (fun item => item != ""))

/-- Embeds the state update of `handleScan` in `BarcodeReconciler.jsx`
(lines 42-57): the field value is trimmed and, when non-empty, its count in
`scannedData` is incremented; there is no resolution against the master list
and no failure signal. -/
def handleScan (st : AppState) (value : String) : AppState :=
  let scannedNumber := jsTrim value
  if scannedNumber = "" then st
  else { st with scannedData := bump st.scannedData scannedNumber }

end OneCol

namespace Reconciler

/-- The report value derived by `useMemo` in both variants. -/
structure Report where
  totalExpected : Nat
  totalScanned : Nat
  missing : List String
  matched : List String
  short : Tally
  excess : Tally

/-- Embeds the `report` derivation, character-identical in
`src/unnamed/part_000` (lines 139-175) and `BarcodeReconciler.jsx`
(lines 60-98): each master-list item goes to `missing`, `matched` or `short`
according to its count; every tallied key absent from the master list is
emitted into `excess` with its count; `totalScanned` sums all counts and
`totalExpected` is the master-list length.  The `short` object is built by
object assignment in master-list order. -/
def report (ml : List String) (t : Tally) : Report :=
  { totalExpected := ml.length
    totalScanned := (t.map Prod.snd).sum
    missing := ml.filter (fun item => lookupCount t item == 0)
    matched := ml.filter (fun item => lookupCount t item == 1)
    short := ml.foldl
      (fun acc item =>
        if 1 < lookupCount t item then objSet acc item (lookupCount t item) else acc) []
    excess := t.filterMap (fun p => if ml.contains p.1 then none else some p) }

end Reconciler

namespace TwoCol

open Reconciler

/-- The catalog build as claim C7 words it: each non-empty row is read as a
pair of a trimmed primaryId (field 0) and a trimmed secondaryId (field 1 when
present, otherwise absent and rendered as the empty string); rows whose
trimmed primaryId is empty are dropped; the surviving rows are rendered as
the combined "primaryId,secondaryId" string and deduplicated by it. -/
def claimedBuild (rows : List (List String)) : List String :=
  dedupFirst (rows.filterMap fun row =>
    match row with
    | [] => none
    | f0 :: rest =>
        let p := jsTrim f0
        let s := match rest with
                 | [] => ""
                 | f1 :: _ => jsTrim f1
        if p = "" then none else some (p ++ "," ++ s))

/-- The amended build description: identical to `claimedBuild` except that a
row is also dropped when its trimmed primaryId begins with a comma, because
the source filters on the first comma-segment of the joined entry string. -/
def amendedBuild (rows : List (List String)) : List String :=
  dedupFirst (rows.filterMap fun row =>
    match row with
    | [] => none
    | f0 :: rest =>
        let p := jsTrim f0
        let s := match rest with
                 | [] => ""
                 | f1 :: _ => jsTrim f1
        if p = "" ∨ p.data.head? = some ',' then none else some (p ++ "," ++ s))

end TwoCol

namespace Reconciler

/-- Exactly one of three alternatives holds. -/
def exactlyOneOfThree (a b c : Prop) : Prop :=
  (a ∧ ¬ b ∧ ¬ c) ∨ (b ∧ ¬ a ∧ ¬ c) ∨ (c ∧ ¬ a ∧ ¬ b)

/-- The partition property claim C1 states for the report's three
expected-item buckets over a catalog and a tally: the bucket sizes add up to
totalExpected and every catalog item is in exactly one of missing, matched,
or short (as a key). -/
def bucketsPartition (ml : List String) (t : Tally) : Prop :=
  (report ml t).missing.length + (report ml t).matched.length
      + (report ml t).short.length = (report ml t).totalExpected
  ∧ ∀ item ∈ ml,
      exactlyOneOfThree (item ∈ (report ml t).missing)
        (item ∈ (report ml t).matched)
        (hasKey (report ml t).short item = true)

end Reconciler

namespace Reconciler

/-! Lemmas about the tally operations. -/

theorem lookupCount_objSet_self (t : Tally) (k : String) (v : Nat) :
    lookupCount (objSet t k v) k = v := by
  induction t with
  | nil => simp [objSet, lookupCount]
  | cons p t ih =>
      by_cases h : p.1 = k
      · simp [objSet, h, lookupCount]
      · simp [objSet, h, lookupCount, ih]

theorem lookupCount_objSet_ne (t : Tally) (k k' : String) (v : Nat) (h : k' ≠ k) :
    lookupCount (objSet t k v) k' = lookupCount t k' := by
  have h1 : ¬ (k = k') := fun hh => h hh.symm
  induction t with
  | nil =>
      simp only [objSet, lookupCount]
      rw [if_neg h1]
  | cons p t ih =>
      by_cases hp : p.1 = k
      · have h2 : ¬ (p.1 = k') := fun hh => h1 (hp.symm.trans hh)
        simp only [objSet, if_pos hp, lookupCount]
        rw [if_neg h1, if_neg h2]
      · simp only [objSet, if_neg hp, lookupCount]
        by_cases hp' : p.1 = k'
        · rw [if_pos hp', if_pos hp']
        · rw [if_neg hp', if_neg hp', ih]

theorem lookupCount_bump_self (t : Tally) (k : String) :
    lookupCount (bump t k) k = lookupCount t k + 1 := by
  simp [bump, lookupCount_objSet_self]

theorem lookupCount_bump_ne (t : Tally) (k k' : String) (h : k' ≠ k) :
    lookupCount (bump t k) k' = lookupCount t k' := by
  simp [bump, lookupCount_objSet_ne _ _ _ _ h]

theorem lookupCount_le_bump (t : Tally) (k k' : String) :
    lookupCount t k' ≤ lookupCount (bump t k) k' := by
  by_cases h : k' = k
  · subst h; rw [lookupCount_bump_self]; omega
  · rw [lookupCount_bump_ne _ _ _ h]

theorem objSet_mem_self (t : Tally) (k : String) (v : Nat) :
    (k, v) ∈ objSet t k v := by
  induction t with
  | nil => simp [objSet]
  | cons p t ih =>
      by_cases h : p.1 = k
      · simp only [objSet, if_pos h]
        exact List.mem_cons_self _ _
      · simp only [objSet, if_neg h]
        exact List.mem_cons_of_mem _ ih

theorem bump_mem_self (t : Tally) (k : String) :
    (k, lookupCount t k + 1) ∈ bump t k :=
  objSet_mem_self t k (lookupCount t k + 1)

theorem hasKey_objSet_iff (t : Tally) (k k' : String) (v : Nat) :
    hasKey (objSet t k v) k' = true ↔ k' = k ∨ hasKey t k' = true := by
  induction t with
  | nil =>
      simp only [objSet, hasKey, List.any_cons, List.any_nil, Bool.or_false,
        beq_iff_eq, Bool.false_eq_true, or_false]
      exact eq_comm
  | cons p t ih =>
      by_cases h : p.1 = k
      · subst h
        have heq : objSet (p :: t) p.1 v = (p.1, v) :: t := by
          simp [objSet]
        rw [heq]
        simp only [hasKey, List.any_cons, Bool.or_eq_true, beq_iff_eq]
        constructor
        · exact fun hh => Or.inr hh
        · rintro (hh | hh)
          · exact Or.inl hh.symm
          · exact hh
      · simp only [hasKey] at ih
        simp only [objSet, if_neg h, hasKey, List.any_cons, Bool.or_eq_true, ih]
        tauto

theorem objSet_of_hasKey_eq_false (t : Tally) (k : String) (v : Nat)
    (h : hasKey t k = false) : objSet t k v = t ++ [(k, v)] := by
  induction t with
  | nil => simp [objSet]
  | cons p t ih =>
      simp only [hasKey, List.any_cons, Bool.or_eq_false_iff] at h
      have hp : p.1 ≠ k := fun hh => by simp [hh] at h
      simp only [objSet, if_neg hp, List.cons_append, List.cons.injEq, true_and]
      exact ih (by simpa [hasKey] using h.2)

/-! Lemmas about the comma splitter. -/

theorem splitAux_getD_zero (l acc : List Char) :
    (splitAux l acc).getD 0 "" =
      String.mk (acc.reverse ++ l.takeWhile (fun c => !(c == ','))) := by
  induction l generalizing acc with
  | nil => simp [splitAux]
  | cons c cs ih =>
      by_cases h : c = ','
      · subst h
        simp [splitAux, List.takeWhile_cons]
      · have hb : (c == ',') = false := by simp [h]
        simp only [splitAux, hb, Bool.false_eq_true, if_false, List.takeWhile_cons,
          Bool.not_false, if_true, ih, List.reverse_cons, List.append_assoc,
          List.singleton_append]

theorem takeWhile_append_comma (l1 l2 : List Char) :
    (l1 ++ ',' :: l2).takeWhile (fun c => !(c == ',')) =
      l1.takeWhile (fun c => !(c == ',')) := by
  induction l1 with
  | nil => simp [List.takeWhile_cons]
  | cons c cs ih =>
      by_cases h : c = ','
      · simp [List.takeWhile_cons, h]
      · simp [List.takeWhile_cons, h, ih]

theorem data_append_comma (p s : String) :
    (p ++ "," ++ s).data = p.data ++ ',' :: s.data := by
  simp [String.data_append]

theorem jsSplitComma_getD_zero (p s : String) :
    (jsSplitComma (p ++ "," ++ s)).getD 0 "" =
      String.mk (p.data.takeWhile (fun c => !(c == ','))) := by
  unfold jsSplitComma
  rw [data_append_comma, splitAux_getD_zero, takeWhile_append_comma]
  simp

theorem mk_takeWhile_eq_empty_iff (l : List Char) :
    String.mk (l.takeWhile (fun c => !(c == ','))) = "" ↔
      l = [] ∨ l.head? = some ',' := by
  cases l with
  | nil => simp [String.ext_iff]
  | cons c cs =>
      by_cases h : c = ','
      · subst h
        simp [List.takeWhile_cons, String.ext_iff]
      · simp [List.takeWhile_cons, h, String.ext_iff]

theorem splitAux_of_no_comma (l acc : List Char)
    (h : ∀ c ∈ l, (c == ',') = false) :
    splitAux l acc = [String.mk (acc.reverse ++ l)] := by
  induction l generalizing acc with
  | nil => simp [splitAux]
  | cons c cs ih =>
      have hc : (c == ',') = false := h c (List.mem_cons_self _ _)
      simp only [splitAux, hc, Bool.false_eq_true, if_false]
      rw [ih _ (fun d hd => h d (List.mem_cons_of_mem _ hd))]
      simp

theorem splitAux_append_of_no_comma (l1 l2 acc : List Char)
    (h : ∀ c ∈ l1, (c == ',') = false) :
    splitAux (l1 ++ ',' :: l2) acc =
      String.mk (acc.reverse ++ l1) :: splitAux l2 [] := by
  induction l1 generalizing acc with
  | nil => simp [splitAux]
  | cons c cs ih =>
      have hc : (c == ',') = false := h c (List.mem_cons_self _ _)
      simp only [List.cons_append, splitAux, hc, Bool.false_eq_true, if_false]
      rw [show cs.append (',' :: l2) = cs ++ ',' :: l2 from rfl,
        ih _ (fun d hd => h d (List.mem_cons_of_mem _ hd))]
      simp

theorem jsSplitComma_pair (P S : String)
    (hP : ∀ c ∈ P.data, (c == ',') = false)
    (hS : ∀ c ∈ S.data, (c == ',') = false) :
    jsSplitComma (P ++ "," ++ S) = [P, S] := by
  unfold jsSplitComma
  rw [data_append_comma, splitAux_append_of_no_comma _ _ _ hP,
    splitAux_of_no_comma _ _ hS]
  simp

theorem str_append_empty (s : String) : s ++ "" = s := by
  apply String.ext
  simp [String.data_append]

theorem jsSplitComma_getD_zero_one (p : String) :
    (jsSplitComma (p ++ ",")).getD 0 "" =
      String.mk (p.data.takeWhile (fun c => !(c == ','))) := by
  have h := jsSplitComma_getD_zero p ""
  rwa [str_append_empty] at h

theorem data_eq_nil_iff (p : String) : p.data = [] ↔ p = "" := by
  constructor
  · intro h
    apply String.ext
    simpa using h
  · intro h
    simp [h]

/-- The entry filter of the two-column build, compared with the claim-side
drop rule: the first comma-segment of `p ++ "," ++ s` is empty exactly when
the primary field `p` is empty or begins with a comma. -/
theorem filter_entry_eq (p s : String) :
    (if (jsSplitComma (p ++ "," ++ s)).getD 0 "" != "" then some (p ++ "," ++ s)
     else none) =
    (if p = "" ∨ p.data.head? = some ',' then none else some (p ++ "," ++ s)) := by
  by_cases h : p = "" ∨ p.data.head? = some ','
  · have he : (jsSplitComma (p ++ "," ++ s)).getD 0 "" = "" := by
      rw [jsSplitComma_getD_zero]
      refine (mk_takeWhile_eq_empty_iff _).mpr ?_
      rcases h with h | h
      · exact Or.inl ((data_eq_nil_iff p).mpr h)
      · exact Or.inr h
    rw [if_pos h, he]
    simp
  · have he : (jsSplitComma (p ++ "," ++ s)).getD 0 "" ≠ "" := by
      rw [jsSplitComma_getD_zero]
      intro hc
      rcases (mk_takeWhile_eq_empty_iff _).mp hc with hc | hc
      · exact h (Or.inl ((data_eq_nil_iff p).mp hc))
      · exact h (Or.inr hc)
    rw [if_neg h, if_pos (bne_iff_ne.mpr he)]

theorem filter_filterMap {α β : Type} (f : α → Option β) (p : β → Bool)
    (l : List α) :
    (l.filterMap f).filter p =
      l.filterMap (fun x => (f x).bind (fun e => if p e then some e else none)) := by
  induction l with
  | nil => rfl
  | cons a l ih =>
      cases hf : f a with
      | none => simp [List.filterMap_cons, hf, ih]
      | some b =>
          by_cases hp : p b
          · simp [List.filterMap_cons, hf, List.filter_cons, hp, ih]
          · simp [List.filterMap_cons, hf, List.filter_cons, hp, ih]

theorem filterMap_congr_fun {α β : Type} (f g : α → Option β) (l : List α)
    (h : ∀ x, f x = g x) : l.filterMap f = l.filterMap g := by
  induction l with
  | nil => rfl
  | cons a l ih => rw [List.filterMap_cons, List.filterMap_cons, h a, ih]

end Reconciler

namespace TwoCol

open Reconciler

/-- Per-row agreement between the source build pipeline (row to joined entry,
then the first-comma-segment filter) and the amended claim-side description. -/
theorem row_entry_eq (row : List String) :
    ((match row with
      | a :: b :: _ => some (jsTrim a ++ "," ++ jsTrim b)
      | [a] => some (jsTrim a ++ ",")
      | [] => none).bind fun e =>
        if (jsSplitComma e).getD 0 "" != "" then some e else none) =
    (match row with
     | [] => none
     | f0 :: rest =>
         let p := jsTrim f0
         let s := match rest with
                  | [] => ""
                  | f1 :: _ => jsTrim f1
         if p = "" ∨ p.data.head? = some ',' then none else some (p ++ "," ++ s)) := by
  cases row with
  | nil => rfl
  | cons f0 rest =>
      cases rest with
      | nil =>
          show (if (jsSplitComma (jsTrim f0 ++ ",")).getD 0 "" != ""
                then some (jsTrim f0 ++ ",") else none) =
               (if jsTrim f0 = "" ∨ (jsTrim f0).data.head? = some ','
                then none else some (jsTrim f0 ++ "," ++ ""))
          rw [show (jsTrim f0 ++ "," ++ "") = jsTrim f0 ++ "," from str_append_empty _]
          by_cases h : jsTrim f0 = "" ∨ (jsTrim f0).data.head? = some ','
          · have he : (jsSplitComma (jsTrim f0 ++ ",")).getD 0 "" = "" := by
              rw [jsSplitComma_getD_zero_one]
              refine (mk_takeWhile_eq_empty_iff _).mpr ?_
              rcases h with h | h
              · exact Or.inl ((data_eq_nil_iff _).mpr h)
              · exact Or.inr h
            rw [if_pos h, he]
            simp
          · have he : (jsSplitComma (jsTrim f0 ++ ",")).getD 0 "" ≠ "" := by
              rw [jsSplitComma_getD_zero_one]
              intro hc
              rcases (mk_takeWhile_eq_empty_iff _).mp hc with hc | hc
              · exact h (Or.inl ((data_eq_nil_iff _).mp hc))
              · exact h (Or.inr hc)
            rw [if_neg h, if_pos (bne_iff_ne.mpr he)]
      | cons f1 rest' =>
          show (if (jsSplitComma (jsTrim f0 ++ "," ++ jsTrim f1)).getD 0 "" != ""
                then some (jsTrim f0 ++ "," ++ jsTrim f1) else none) = _
          exact filter_entry_eq (jsTrim f0) (jsTrim f1)

/-- A scan whose normalized identifier matches no master-list entry is
rejected by `processNumber`: it returns false and leaves the state as is
(the empty-input guard also lands in this case). -/
theorem processNumber_of_no_match (st : AppState) (raw : String)
    (h : ∀ item ∈ st.masterList, matchesItem (jsToUpper (jsTrim raw)) item = false) :
    processNumber st raw = (false, st) := by
  unfold processNumber
  by_cases hr : raw = ""
  · simp [hr]
  · rw [if_neg hr]
    have hf : st.masterList.find?
        (fun item => matchesItem (jsToUpper (jsTrim raw)) item) = none :=
      List.find?_eq_none.mpr (fun x hx => by simp [h x hx])
    simp only [hf]

end TwoCol

namespace Reconciler

theorem find?_append_of_none {α : Type} (p : α → Bool) (l1 l2 : List α)
    (h : ∀ x ∈ l1, p x = false) : (l1 ++ l2).find? p = l2.find? p := by
  induction l1 with
  | nil => rfl
  | cons a l ih =>
      have ha : ¬ p a = true := by simp [h a (List.mem_cons_self _ _)]
      rw [List.cons_append, List.find?_cons_of_neg _ ha]
      exact ih (fun x hx => h x (List.mem_cons_of_mem _ hx))

end Reconciler

namespace Reconciler

/-! Lemmas about deduplication and the report buckets. -/

theorem dedupFirst_aux_nodup (l acc : List String) (h : acc.Nodup) :
    (l.foldl (fun acc x => if x ∈ acc then acc else acc ++ [x]) acc).Nodup := by
  induction l generalizing acc with
  | nil => exact h
  | cons x l ih =>
      simp only [List.foldl_cons]
      by_cases hx : x ∈ acc
      · rw [if_pos hx]
        exact ih _ h
      · rw [if_neg hx]
        refine ih _ (List.nodup_append.mpr ⟨h, List.nodup_singleton x, ?_⟩)
        intro a ha hb
        exact hx ((List.mem_singleton.mp hb) ▸ ha)

theorem dedupFirst_nodup (l : List String) : (dedupFirst l).Nodup :=
  dedupFirst_aux_nodup l [] List.nodup_nil

theorem short_fold_eq (t : Tally) :
    ∀ (ml : List String) (acc : Tally), ml.Nodup →
      (∀ i ∈ ml, hasKey acc i = false) →
      ml.foldl (fun acc item =>
          if 1 < lookupCount t item then objSet acc item (lookupCount t item)
          else acc) acc
        = acc ++ (ml.filter (fun item => decide (1 < lookupCount t item))).map
            (fun item => (item, lookupCount t item)) := by
  intro ml
  induction ml with
  | nil => intro acc _ _; simp
  | cons i ml ih =>
      intro acc hnd hkeys
      simp only [List.foldl_cons, List.filter_cons]
      by_cases hc : 1 < lookupCount t i
      · rw [if_pos hc, objSet_of_hasKey_eq_false _ _ _ (hkeys i (List.mem_cons_self _ _))]
        have hkeys2 : ∀ j ∈ ml, hasKey (acc ++ [(i, lookupCount t i)]) j = false := by
          intro j hj
          have hji : ¬ (i = j) :=
            fun hh => (List.nodup_cons.mp hnd).1 (hh ▸ hj)
          have h1 : hasKey acc j = false := hkeys j (List.mem_cons_of_mem _ hj)
          simp only [hasKey] at h1 ⊢
          simp [List.any_append, h1, hji]
        rw [ih _ (List.nodup_cons.mp hnd).2 hkeys2]
        simp [hc]
      · rw [if_neg hc,
          ih _ (List.nodup_cons.mp hnd).2 (fun j hj => hkeys j (List.mem_cons_of_mem _ hj))]
        simp [hc]

theorem short_eq_of_nodup (ml : List String) (t : Tally) (h : ml.Nodup) :
    (report ml t).short
      = (ml.filter (fun item => decide (1 < lookupCount t item))).map
          (fun item => (item, lookupCount t item)) := by
  show ml.foldl _ [] = _
  rw [short_fold_eq t ml [] h (fun i _ => rfl)]
  rfl

theorem hasKey_short_iff (ml : List String) (t : Tally) (item : String)
    (h : ml.Nodup) :
    hasKey (report ml t).short item = true ↔ item ∈ ml ∧ 1 < lookupCount t item := by
  rw [short_eq_of_nodup _ _ h]
  simp only [hasKey, List.any_eq_true, List.mem_map, List.mem_filter]
  constructor
  · rintro ⟨p, ⟨x, ⟨hx, hdec⟩, hpx⟩, hbeq⟩
    have hx2 : p.1 = item := by simpa using hbeq
    have : x = item := by
      rw [← hx2, ← hpx]
    exact ⟨this ▸ hx, by simpa [this] using of_decide_eq_true hdec⟩
  · rintro ⟨hmem, hlt⟩
    exact ⟨(item, lookupCount t item), ⟨item, ⟨hmem, decide_eq_true hlt⟩, rfl⟩, by simp⟩

theorem filter_lengths_sum (ml : List String) (t : Tally) :
    (ml.filter (fun i => lookupCount t i == 0)).length
      + (ml.filter (fun i => lookupCount t i == 1)).length
      + (ml.filter (fun i => decide (1 < lookupCount t i))).length
      = ml.length := by
  induction ml with
  | nil => rfl
  | cons i ml ih =>
      simp only [List.filter_cons, List.length_cons]
      by_cases h0 : lookupCount t i = 0
      · have hb0 : (lookupCount t i == 0) = true := beq_iff_eq.mpr h0
        have hb1 : (lookupCount t i == 1) = false := by simp [h0]
        have hb2 : decide (1 < lookupCount t i) = false := by simp [h0]
        simp only [hb0, hb1, hb2, Bool.false_eq_true, if_true, if_false, List.length_cons]
        omega
      · by_cases h1 : lookupCount t i = 1
        · have hb0 : (lookupCount t i == 0) = false := by simp [h1]
          have hb1 : (lookupCount t i == 1) = true := beq_iff_eq.mpr h1
          have hb2 : decide (1 < lookupCount t i) = false := by simp [h1]
          simp only [hb0, hb1, hb2, Bool.false_eq_true, if_true, if_false, List.length_cons]
          omega
        · have hgt : 1 < lookupCount t i := by omega
          have hb0 : (lookupCount t i == 0) = false := by simp [h0]
          have hb1 : (lookupCount t i == 1) = false := by simp [h1]
          have hb2 : decide (1 < lookupCount t i) = true := decide_eq_true hgt
          simp only [hb0, hb1, hb2, Bool.false_eq_true, if_true, if_false, List.length_cons]
          omega

theorem partition_of_nodup (ml : List String) (t : Tally) (h : ml.Nodup) :
    bucketsPartition ml t := by
  constructor
  · show (ml.filter _).length + (ml.filter _).length + (report ml t).short.length
        = ml.length
    rw [short_eq_of_nodup _ _ h, List.length_map]
    exact filter_lengths_sum ml t
  · intro item hitem
    have hmiss : item ∈ (report ml t).missing ↔ lookupCount t item = 0 := by
      simp [report, List.mem_filter, hitem]
    have hmatch : item ∈ (report ml t).matched ↔ lookupCount t item = 1 := by
      simp [report, List.mem_filter, hitem]
    have hshort : hasKey (report ml t).short item = true ↔ 1 < lookupCount t item := by
      rw [hasKey_short_iff _ _ _ h]
      simp [hitem]
    simp only [exactlyOneOfThree, hmiss, hmatch, hshort]
    omega

end Reconciler

namespace TwoCol

open Reconciler

/-- A record call never changes the master list (two-column variant). -/
theorem processNumber_masterList (st : AppState) (raw : String) :
    (processNumber st raw).2.masterList = st.masterList := by
  unfold processNumber
  by_cases h : raw = ""
  · simp [h]
  · rw [if_neg h]
    cases hf : st.masterList.find?
        (fun item => matchesItem (jsToUpper (jsTrim raw)) item) with
    | none => simp [hf]
    | some m => simp [hf]

/-- Folding any scan sequence through `processNumber` preserves the master
list. -/
theorem foldl_processNumber_masterList (scans : List String) (s0 : AppState) :
    (scans.foldl (fun s r => (processNumber s r).2) s0).masterList
      = s0.masterList := by
  induction scans generalizing s0 with
  | nil => rfl
  | cons r scans ih => rw [List.foldl_cons, ih, processNumber_masterList]

end TwoCol

namespace OneCol

open Reconciler

/-- A record call never changes the master list (one-column variant). -/
theorem handleScan_masterList (st : AppState) (raw : String) :
    (handleScan st raw).masterList = st.masterList := by
  unfold handleScan
  by_cases h : jsTrim raw = ""
  · simp [h]
  · simp [h]

/-- Folding any scan sequence through `handleScan` preserves the master
list. -/
theorem foldl_handleScan_masterList (scans : List String) (s0 : AppState) :
    (scans.foldl (fun s r => handleScan s r) s0).masterList = s0.masterList := by
  induction scans generalizing s0 with
  | nil => rfl
  | cons r scans ih => rw [List.foldl_cons, ih, handleScan_masterList]

end OneCol

open Reconciler in
/-- Claim C7 counterexample: for the single row `[",X", "S"]` the claim's
build keeps the row (its trimmed primaryId ",X" is non-empty), but the
source build drops it, because the source filters on the first
comma-segment of the joined entry string ",X,S", which is empty. -/
theorem c7_counterexample :
    TwoCol.parseMasterList [[",X", "S"]] ≠ TwoCol.claimedBuild [[",X", "S"]] := by
  decide

open Reconciler in
/-- Claim C7 amended: the two-column catalog build treats a row with one
field as (primaryId, absent secondaryId) and a row with two or more fields
as (primaryId=field0, secondaryId=field1) with further fields ignored,
drops every row whose trimmed primaryId is empty or begins with a comma,
renders each kept row as the combined "primaryId,secondaryId" string
(absent secondaryId rendered as the empty string) and deduplicates the
entries by that string, keeping first occurrences. -/
theorem c7_build_amended :
    ∀ rows, TwoCol.parseMasterList rows = TwoCol.amendedBuild rows := by
  intro rows
  unfold TwoCol.parseMasterList TwoCol.amendedBuild
  congr 1
  rw [filter_filterMap]
  exact filterMap_congr_fun _ _ _ TwoCol.row_entry_eq

open Reconciler in
/-- Claim C10: in the two-column variant, a scan whose normalized identifier
matches no catalog entry's primary or secondary identifier is rejected
atomically: `processNumber` returns false and leaves the scanned-data state
completely unchanged, so the report derived after the rejected scan is the
report derived before it. -/
theorem c10_atomic_rejection :
    ∀ (st : AppState) (raw : String),
      (∀ item ∈ st.masterList,
        TwoCol.matchesItem (jsToUpper (jsTrim raw)) item = false) →
      TwoCol.processNumber st raw = (false, st) ∧
      report st.masterList (TwoCol.processNumber st raw).2.scannedData =
        report st.masterList st.scannedData := by
  intro st raw h
  have hmain := TwoCol.processNumber_of_no_match st raw h
  exact ⟨hmain, by rw [hmain]⟩

open Reconciler in
/-- Witness for C10 at a concrete input: with catalog entry "INST-7,SN-1"
and one prior scan, the unmatched scan "ZZZ" returns false and leaves the
state untouched. -/
theorem c10_witness :
    TwoCol.processNumber ⟨["INST-7,SN-1"], [("X", 1)]⟩ "ZZZ"
      = (false, ⟨["INST-7,SN-1"], [("X", 1)]⟩) :=
  (c10_atomic_rejection ⟨["INST-7,SN-1"], [("X", 1)]⟩ "ZZZ" (by decide)).1

open Reconciler in
/-- Claim C4: for a catalog item carrying both a primary and a secondary
identifier (comma-free fields), a scan equal to either identifier up to
trimming and ASCII upper-casing — provided no earlier catalog entry matches
the normalized scan — resolves to that item and increments the single tally
count keyed by the item's trimmed primary identifier. -/
theorem c4_either_identifier :
    ∀ (ml1 ml2 : List String) (sd : Tally) (P S raw : String),
      (∀ c ∈ P.data, (c == ',') = false) →
      (∀ c ∈ S.data, (c == ',') = false) →
      raw ≠ "" →
      (∀ item ∈ ml1, TwoCol.matchesItem (jsToUpper (jsTrim raw)) item = false) →
      (jsToUpper (jsTrim raw) = jsToUpper (jsTrim P) ∨
       jsToUpper (jsTrim raw) = jsToUpper (jsTrim S)) →
      TwoCol.processNumber ⟨ml1 ++ (P ++ "," ++ S) :: ml2, sd⟩ raw =
        (true, ⟨ml1 ++ (P ++ "," ++ S) :: ml2, bump sd (jsTrim P)⟩) := by
  intro ml1 ml2 sd P S raw hP hS hraw hml1 hmatch
  have hsplit : jsSplitComma (P ++ "," ++ S) = [P, S] := jsSplitComma_pair P S hP hS
  have hm : TwoCol.matchesItem (jsToUpper (jsTrim raw)) (P ++ "," ++ S) = true := by
    simp only [TwoCol.matchesItem, hsplit, List.map_cons, List.map_nil]
    rcases hmatch with h | h
    · simp [h]
    · simp [h]
  have hfind : (ml1 ++ (P ++ "," ++ S) :: ml2).find?
      (fun item => TwoCol.matchesItem (jsToUpper (jsTrim raw)) item)
      = some (P ++ "," ++ S) := by
    rw [find?_append_of_none _ _ _ hml1]
    exact List.find?_cons_of_pos _ hm
  unfold TwoCol.processNumber
  rw [if_neg hraw]
  simp only [hfind, hsplit]
  simp

open Reconciler in
/-- Witness for C4 at the claim's example: with catalog item
("INST-1","SN-99"), scanning "inst-1" and scanning "sn-99" both succeed and
both increment the tally entry keyed by INST-1. -/
theorem c4_witness :
    TwoCol.processNumber ⟨["INST-1,SN-99"], []⟩ "inst-1"
      = (true, ⟨["INST-1,SN-99"], [("INST-1", 1)]⟩) ∧
    TwoCol.processNumber ⟨["INST-1,SN-99"], []⟩ "sn-99"
      = (true, ⟨["INST-1,SN-99"], [("INST-1", 1)]⟩) := by
  constructor
  · have h := c4_either_identifier [] [] [] "INST-1" "SN-99" "inst-1"
      (by decide) (by decide) (by decide) (by simp) (Or.inl (by decide))
    exact h.trans (by decide)
  · have h := c4_either_identifier [] [] [] "INST-1" "SN-99" "sn-99"
      (by decide) (by decide) (by decide) (by simp) (Or.inr (by decide))
    exact h.trans (by decide)

open Reconciler in
/-- Claim C2 counterexample: in the two-column variant the unresolved scan
"GHOST" against catalog ["A,B"] returns the unmatched signal but is NOT
recorded anywhere: the tally stays empty and the report's excess bucket is
empty, so the identifier is lost rather than surfaced with its count. -/
theorem c2_counterexample :
    TwoCol.processNumber ⟨["A,B"], []⟩ "GHOST" = (false, ⟨["A,B"], []⟩) ∧
    (report ["A,B"]
      (TwoCol.processNumber ⟨["A,B"], []⟩ "GHOST").2.scannedData).excess = [] := by
  exact ⟨by decide, by decide⟩

open Reconciler in
/-- Claim C2 amended: the two variants split the claimed behavior.  In the
two-column variant an unresolved scan returns the unmatched signal (false)
and is discarded entirely — nothing is recorded.  In the one-column variant
every scan with a non-empty trimmed identifier is recorded unconditionally:
the tally entry keyed by the original trimmed raw identifier is incremented
(or created with count 1), and when that identifier is not a catalog entry
it appears with its count in the report's excess bucket; no unmatched
signal is produced there. -/
theorem c2_unresolved_scan_amended :
    (∀ (st : AppState) (raw : String),
      (∀ item ∈ st.masterList,
        TwoCol.matchesItem (jsToUpper (jsTrim raw)) item = false) →
      TwoCol.processNumber st raw = (false, st)) ∧
    (∀ (st : AppState) (raw : String),
      jsTrim raw ≠ "" →
      (OneCol.handleScan st raw).scannedData = bump st.scannedData (jsTrim raw) ∧
      lookupCount (OneCol.handleScan st raw).scannedData (jsTrim raw)
        = lookupCount st.scannedData (jsTrim raw) + 1 ∧
      (st.masterList.contains (jsTrim raw) = false →
        (jsTrim raw, lookupCount st.scannedData (jsTrim raw) + 1)
          ∈ (report st.masterList (OneCol.handleScan st raw).scannedData).excess)) := by
  constructor
  · exact fun st raw h => TwoCol.processNumber_of_no_match st raw h
  · intro st raw h
    have hb : (OneCol.handleScan st raw).scannedData = bump st.scannedData (jsTrim raw) := by
      simp [OneCol.handleScan, h]
    refine ⟨hb, ?_, ?_⟩
    · rw [hb]
      exact lookupCount_bump_self _ _
    · intro hc
      rw [hb]
      show _ ∈ (bump st.scannedData (jsTrim raw)).filterMap
        (fun p => if st.masterList.contains p.1 then none else some p)
      exact List.mem_filterMap.mpr
        ⟨(jsTrim raw, lookupCount st.scannedData (jsTrim raw) + 1),
          bump_mem_self _ _, by simp only [hc]; rfl⟩

open Reconciler in
/-- Witness for the amended C2: an unresolved scan in the two-column variant
is rejected without a trace, and an unresolved scan in the one-column
variant is tallied and surfaces in the report's excess bucket. -/
theorem c2_witness :
    TwoCol.processNumber ⟨["A,B"], []⟩ "NOPE" = (false, ⟨["A,B"], []⟩) ∧
    (OneCol.handleScan ⟨["A"], []⟩ "GHOST-404").scannedData = [("GHOST-404", 1)] ∧
    ("GHOST-404", 1) ∈
      (report ["A"] (OneCol.handleScan ⟨["A"], []⟩ "GHOST-404").scannedData).excess := by
  refine ⟨c2_unresolved_scan_amended.1 ⟨["A,B"], []⟩ "NOPE" (by decide), ?_, ?_⟩
  · have h := (c2_unresolved_scan_amended.2 ⟨["A"], []⟩ "GHOST-404" (by decide)).1
    exact h.trans (by decide)
  · exact (c2_unresolved_scan_amended.2 ⟨["A"], []⟩ "GHOST-404" (by decide)).2.2 (by decide)

open Reconciler in
/-- Claim C3 fails on the two-column variant: building the catalog from the
single row ("INST-1","SN-99") and recording "INST-1" exactly once stores the
count under the key "INST-1", but the report looks the item up under the
joined entry string "INST-1,SN-99".  The item therefore stays in missing,
matched is empty, and the recorded scan surfaces in excess instead. -/
theorem c3_report_key_mismatch :
    TwoCol.parseMasterList [["INST-1", "SN-99"]] = ["INST-1,SN-99"] ∧
    (TwoCol.processNumber ⟨["INST-1,SN-99"], []⟩ "INST-1").2.scannedData
      = [("INST-1", 1)] ∧
    (report ["INST-1,SN-99"] [("INST-1", 1)]).matched = [] ∧
    (report ["INST-1,SN-99"] [("INST-1", 1)]).missing = ["INST-1,SN-99"] ∧
    (report ["INST-1,SN-99"] [("INST-1", 1)]).excess = [("INST-1", 1)] := by
  exact ⟨by decide, by decide, by decide, by decide, by decide⟩

open Reconciler in
/-- Claim C5 fails on the two-column variant: the whitespace-only input " "
reaches `processNumber` unchanged through the manual-entry path, normalizes
to the empty string, and the empty string matches the empty secondary
identifier of the catalog entry "INST-1," (built from the one-field row
["INST-1"]).  The call counts the blank scan as INST-1 and returns true
instead of being a no-op returning the not-found signal. -/
theorem c5_whitespace_not_noop :
    TwoCol.parseMasterList [["INST-1"]] = ["INST-1,"] ∧
    TwoCol.handleManualSubmit ⟨["INST-1,"], []⟩ " "
      = (true, ⟨["INST-1,"], [("INST-1", 1)]⟩) := by
  exact ⟨by decide, by decide⟩

/-! Frame and monotonicity claims. -/

open Reconciler in
/-- Claim C8: for every sequence of record calls, the tally grows
monotonically — no record call (in either variant) decreases any key's
count: each key's count after a call is at least its count before. -/
theorem c8_tally_monotone :
    ∀ (st : AppState) (raw k : String),
      lookupCount st.scannedData k ≤
        lookupCount (TwoCol.processNumber st raw).2.scannedData k ∧
      lookupCount st.scannedData k ≤
        lookupCount (OneCol.handleScan st raw).scannedData k := by
  intro st raw k
  constructor
  · unfold TwoCol.processNumber
    by_cases h : raw = ""
    · simp [h]
    · simp only [if_neg h]
      cases hf : st.masterList.find? (fun item =>
          TwoCol.matchesItem (jsToUpper (jsTrim raw)) item) with
      | none => simp
      | some m => simpa using lookupCount_le_bump _ _ _
  · unfold OneCol.handleScan
    by_cases h : jsTrim raw = ""
    · simp [h]
    · simpa [h] using lookupCount_le_bump _ _ _

open Reconciler in
/-- Claim C9: a record call leaves the master list (catalog) unchanged in
both variants; the only state component record may change is the scanned
tally.  The report is a pure derivation in this embedding (the source
computes it with `useMemo` from the two state cells without mutating them). -/
theorem c9_record_preserves_catalog :
    ∀ (st : AppState) (raw : String),
      (TwoCol.processNumber st raw).2.masterList = st.masterList ∧
      (OneCol.handleScan st raw).masterList = st.masterList := by
  intro st raw
  exact ⟨TwoCol.processNumber_masterList st raw, OneCol.handleScan_masterList st raw⟩

open Reconciler in
/-- Claim C1: for every built catalog (in either variant) and every tally
state reachable by any sequence of recorded scans, the report's three
expected-item buckets exactly partition the catalog: every catalog item
appears in exactly one of missing, matched, or short (as a key), and
missing.length + matched.length + short-entries.length = totalExpected. -/
theorem c1_report_partition :
    ∀ (rows : List (List String)) (t : Tally),
      bucketsPartition (TwoCol.parseMasterList rows) t ∧
      bucketsPartition (OneCol.parseMasterList rows) t := by
  intro rows t
  exact ⟨partition_of_nodup _ _ (dedupFirst_nodup _),
    partition_of_nodup _ _ (dedupFirst_nodup _)⟩

open Reconciler in
/-- Claim C6: for every built catalog and every scan history (in either
variant), the report's totalScanned equals the sum of all tally counts and
totalExpected equals the number of catalog items. -/
theorem c6_report_totals :
    ∀ (rows : List (List String)) (scans : List String),
      ((report
          (scans.foldl (fun s r => (TwoCol.processNumber s r).2)
            ⟨TwoCol.parseMasterList rows, []⟩).masterList
          (scans.foldl (fun s r => (TwoCol.processNumber s r).2)
            ⟨TwoCol.parseMasterList rows, []⟩).scannedData).totalScanned
        = ((scans.foldl (fun s r => (TwoCol.processNumber s r).2)
            ⟨TwoCol.parseMasterList rows, []⟩).scannedData.map Prod.snd).sum ∧
       (report
          (scans.foldl (fun s r => (TwoCol.processNumber s r).2)
            ⟨TwoCol.parseMasterList rows, []⟩).masterList
          (scans.foldl (fun s r => (TwoCol.processNumber s r).2)
            ⟨TwoCol.parseMasterList rows, []⟩).scannedData).totalExpected
        = (TwoCol.parseMasterList rows).length) ∧
      ((report
          (scans.foldl (fun s r => OneCol.handleScan s r)
            ⟨OneCol.parseMasterList rows, []⟩).masterList
          (scans.foldl (fun s r => OneCol.handleScan s r)
            ⟨OneCol.parseMasterList rows, []⟩).scannedData).totalScanned
        = ((scans.foldl (fun s r => OneCol.handleScan s r)
            ⟨OneCol.parseMasterList rows, []⟩).scannedData.map Prod.snd).sum ∧
       (report
          (scans.foldl (fun s r => OneCol.handleScan s r)
            ⟨OneCol.parseMasterList rows, []⟩).masterList
          (scans.foldl (fun s r => OneCol.handleScan s r)
            ⟨OneCol.parseMasterList rows, []⟩).scannedData).totalExpected
        = (OneCol.parseMasterList rows).length) := by
  intro rows scans
  refine ⟨⟨rfl, ?_⟩, ⟨rfl, ?_⟩⟩
  · show (scans.foldl (fun s r => (TwoCol.processNumber s r).2)
      ⟨TwoCol.parseMasterList rows, []⟩).masterList.length = _
    rw [TwoCol.foldl_processNumber_masterList]
  · show (scans.foldl (fun s r => OneCol.handleScan s r)
      ⟨OneCol.parseMasterList rows, []⟩).masterList.length = _
    rw [OneCol.foldl_handleScan_masterList]

section SanityChecks

open Reconciler

example : TwoCol.parseMasterList [["INST-1", "SN-99"]] = ["INST-1,SN-99"] := by decide

example : TwoCol.processNumber ⟨["INST-1,SN-99"], []⟩ "inst-1"
    = (true, ⟨["INST-1,SN-99"], [("INST-1", 1)]⟩) := by decide

example : TwoCol.processNumber ⟨["INST-1,SN-99"], []⟩ "GHOST"
    = (false, ⟨["INST-1,SN-99"], []⟩) := by decide

example : OneCol.parseMasterList [["A", "B"], ["A"]] = ["A", "B"] := by decide

end SanityChecks
